import Mathlib

set_option maxHeartbeats 1000000

/-! Shallow embedding of the firebase-tools emulator lifecycle controller
    (`startAll`, `startEmulator`, `cleanShutdown`, `shouldStart`,
    `filterEmulatorTargets`) and of the export/import coordinator
    (`src/emulator/hubExport.ts`: `HubExport.exportAll`,
    `HubExport.exportFirestore`, `HubExport.getExportName`).

    External collaborators (the TCP port prober, the per-instance stop
    operation, the Firestore export HTTP endpoint, the CLI version constant
    and the working directory) are parameters of an `Env` record; the
    mutable process state (the emulator registry and the file system) is a
    `World` record threaded through every operation.  Operations return a
    `Res`, which keeps the world reached at the moment a failure is thrown,
    mirroring the fact that a thrown exception does not roll back state. -/

inductive Emulators where
  | functions
  | firestore
  | database
  | hosting
  | pubsub
  | hub
deriving DecidableEq

def emuName : Emulators → String
  | .functions => "functions"
  | .firestore => "firestore"
  | .database => "database"
  | .hosting => "hosting"
  | .pubsub => "pubsub"
  | .hub => "hub"

/-- Modelled from the spec: `ALL_SERVICE_EMULATORS` lives in
    `src/emulator/types.ts`, which is not under `src/`.  The spec (§3, §4.3
    step 5) fixes the service kinds and their precedence order FUNCTIONS,
    FIRESTORE, DATABASE, HOSTING, PUBSUB; HUB is not a service emulator. -/
def ALL_SERVICE_EMULATORS : List Emulators :=
  [.functions, .firestore, .database, .hosting, .pubsub]

/-- Modelled from the spec: `ALL_EMULATORS` lives in `src/emulator/types.ts`,
    which is not under `src/`; it is every kind including the hub. -/
def ALL_EMULATORS : List Emulators :=
  [.hub, .functions, .firestore, .database, .hosting, .pubsub]

/-- Modelled from the spec: `IMPORT_EXPORT_EMULATORS` lives in
    `src/emulator/types.ts`, which is not under `src/`.  Per the spec (§4.6,
    §6) only the document database (Firestore) is export-capable today: the
    metadata document has a key only for `firestore`, and
    `HubExport.getExportName` defines a name only for FIRESTORE. -/
def IMPORT_EXPORT_EMULATORS : List Emulators := [.firestore]

/-- Failure conditions surfaced by the embedded operations.  `firebase`
    models a `FirebaseError` (including `utils.reject`), `node` models any
    other thrown `Error` (fs errors, JSON parse errors, plain `Error`),
    `portTaken` models the `utils.reject(Could not start ... emulator, port
    taken.)` rejection of `startEmulator`, and `duplicateStart` models the
    Registry's duplicate-start failure. -/
inductive Err where
  | portTaken (name : Emulators)
  | duplicateStart (name : Emulators)
  | firebase (msg : String)
  | node (msg : String)
deriving DecidableEq

structure EmulatorInfo where
  host : String
  port : Nat
deriving DecidableEq

structure FirestoreEmulatorArgs where
  host : String
  port : Nat
  projectId : Option String
  auto_download : Bool
  seed_from_export : Option String := none
  rules : Option String := none
deriving DecidableEq

structure DatabaseEmulatorArgs where
  host : String
  port : Nat
  projectId : Option String
  auto_download : Bool
  functions_emulator_host : Option String := none
  functions_emulator_port : Option Nat := none
  rules : Option String := none
deriving DecidableEq

/-- Embedding of the polymorphic `EmulatorInstance` variants constructed by
    `startAll`: the hub, plus one constructor per service emulator class,
    each carrying the constructor arguments the controller builds for it. -/
inductive EmulatorInstance where
  | hub (projectId : Option String) (host : String) (port : Nat)
  | functions (projectId : Option String) (functionsDir : String)
      (host : String) (port : Nat) (debugPort : Option Nat)
  | firestore (args : FirestoreEmulatorArgs)
  | database (args : DatabaseEmulatorArgs)
  | hosting (host : String) (port : Nat)
  | pubsub (host : String) (port : Nat) (projectId : String)
deriving DecidableEq

def EmulatorInstance.getName : EmulatorInstance → Emulators
  | .hub _ _ _ => .hub
  | .functions _ _ _ _ _ => .functions
  | .firestore _ => .firestore
  | .database _ => .database
  | .hosting _ _ => .hosting
  | .pubsub _ _ _ => .pubsub

def EmulatorInstance.getInfo : EmulatorInstance → EmulatorInfo
  | .hub _ h p => ⟨h, p⟩
  | .functions _ _ h p _ => ⟨h, p⟩
  | .firestore a => ⟨a.host, a.port⟩
  | .database a => ⟨a.host, a.port⟩
  | .hosting h p => ⟨h, p⟩
  | .pubsub h p _ => ⟨h, p⟩

/-- Mutable process state: the emulator registry (in registration order), the
    file system (an association of path to contents), and the trace of
    successful `EmulatorRegistry.start` registrations made so far. -/
structure World where
  registry : List EmulatorInstance
  files : List (String × String)
  started : List EmulatorInstance
deriving DecidableEq

/-- External collaborators: `check` is `tcpport.check(port, host)` (whether
    the port is in use; may throw), `stopResult` is the outcome of an
    instance's own stop operation, `firestoreExportApi` is the Firestore
    emulator's export HTTP endpoint, `cliVersion` is
    `EmulatorHub.CLI_VERSION`, and `cwd` is the process working directory
    used by `path.resolve`. -/
structure FirestoreExportRequest where
  database : String
  export_directory : String
  export_name : String
deriving DecidableEq

structure Env where
  check : Nat → String → Except Unit Bool
  stopResult : Emulators → Except Unit Unit
  firestoreExportApi : FirestoreExportRequest → Except Err Unit
  cliVersion : String
  cwd : String

/-- Result of an effectful operation: on failure the world reached at the
    moment of the throw is kept (a thrown exception does not undo state). -/
inductive Res (α : Type) where
  | ok (a : α) (w : World)
  | err (e : Err) (w : World)
deriving DecidableEq

def Res.bind {α β : Type} : Res α → (α → World → Res β) → Res β
  | .ok a w, f => f a w
  | .err e w, _ => .err e w

def Res.world {α : Type} : Res α → World
  | .ok _ w => w
  | .err _ w => w

def Res.isOk {α : Type} : Res α → Bool
  | .ok _ _ => true
  | .err _ _ => false

def Res.error? {α : Type} : Res α → Option Err
  | .ok _ _ => none
  | .err e _ => some e

/-! File system and path helpers (`fs`, `path`). -/

def readFile (files : List (String × String)) (p : String) : Option String :=
  (files.find? (fun kv => kv.1 == p)).map (fun kv => kv.2)

def writeFile (files : List (String × String)) (p c : String) :
    List (String × String) :=
  if files.any (fun kv => kv.1 == p) then
    files.map (fun kv => if kv.1 == p then (p, c) else kv)
  else
    files ++ [(p, c)]

def existsSync (w : World) (p : String) : Bool :=
  (readFile w.files p).isSome

def splitSlash : List Char → List (List Char)
  | [] => [[]]
  | c :: cs =>
      match splitSlash cs with
      | [] => [[]]
      | g :: gs => if c = '/' then [] :: g :: gs else (c :: g) :: gs

def joinSlash : List (List Char) → List Char
  | [] => []
  | [g] => g
  | g :: gs => g ++ '/' :: joinSlash gs

def startsWithSlash (s : String) : Bool :=
  match s.data with
  | '/' :: _ => true
  | _ => false

/-- Node `path.normalize` restricted to the shapes the controller builds:
    splits on the separator, drops empty components and rejoins, keeping a
    leading separator (`.`/`..` segments do not occur here). -/
def pathNormalize (s : String) : String :=
  let comps := (splitSlash s.data).filter (fun c => c ≠ [])
  let body := joinSlash comps
  if startsWithSlash s then String.mk ('/' :: body) else String.mk body

/-- Node `path.join(a, b)`: concatenation with a separator, normalized. -/
def pathJoin (a b : String) : String :=
  pathNormalize (a ++ "/" ++ b)

/-- Node `path.resolve(p)` against the process working directory. -/
def pathResolve (cwd p : String) : String :=
  if startsWithSlash p then pathNormalize p else pathNormalize (cwd ++ "/" ++ p)

/-! Registry (Modelled from the spec: `src/emulator/registry.ts` is not under
    `src/`; §4.2 gives its contract). -/

def EmulatorRegistry.isRunning (w : World) (e : Emulators) : Bool :=
  w.registry.any (fun i => i.getName == e)

def EmulatorRegistry.listRunning (w : World) : List Emulators :=
  w.registry.map EmulatorInstance.getName

def EmulatorRegistry.get (w : World) (e : Emulators) : Option EmulatorInstance :=
  w.registry.find? (fun i => i.getName == e)

/-- Modelled from the spec (§4.2): `start(instance)` fails on a duplicate
    kind, otherwise invokes the instance's own start operation and records
    the instance under its kind; the instance's own start is modelled as
    succeeding (its port-conflict gate lives in `startEmulator`). -/
def EmulatorRegistry.start (w : World) (i : EmulatorInstance) : Res Unit :=
  if w.registry.any (fun j => j.getName == i.getName) then
    .err (.duplicateStart i.getName) w
  else
    .ok () { w with
      registry := w.registry ++ [i],
      started := w.started ++ [i] }

/-- Modelled from the spec (§4.2, §7): `stop(kind)` invokes the instance's
    stop operation if one is registered — any per-instance stop error is
    swallowed with a best-effort warning — then removes the entry; it is a
    no-op when nothing is running under that kind. -/
def EmulatorRegistry.stop (env : Env) (w : World) (e : Emulators) : World :=
  let _ := env.stopResult e
  { w with registry := w.registry.filter (fun i => i.getName != e) }

/-! Controller functions, translated from the source. -/

def checkPortOpen (env : Env) (port : Nat) (host : String) : Bool :=
  match env.check port host with
  | .ok inUse => !inUse
  | .error _ => false

def cleanShutdown (env : Env) (w : World) : Bool × World :=
  let names := EmulatorRegistry.listRunning w
  (true, names.foldl (fun acc n => EmulatorRegistry.stop env acc n) w)

def startEmulator (env : Env) (w : World) (i : EmulatorInstance) : Res Unit :=
  let info := i.getInfo
  let portOpen := checkPortOpen env info.port info.host
  if !portOpen then
    let s := cleanShutdown env w
    .err (.portTaken i.getName) s.2
  else
    EmulatorRegistry.start w i

structure Config where
  hasKey : String → Bool
  getStr : String → Option String
  projectDir : String

structure Options where
  config : Config
  only : Option String
  importPath : Option String
  project : Option String
  projectRoot : String
  inspectFunctions : Option Nat
  addr : Emulators → EmulatorInfo

/-- Modelled from the spec: `getProjectId(options, allowNull)` is not under
    `src/`; it resolves the project identifier from the options, `none` when
    none is resolvable. -/
def getProjectId (options : Options) (_allowNull : Bool) : Option String :=
  options.project

/-- Modelled from the spec: `Constants.getAddress(kind, options)` is not
    under `src/`; it yields the per-kind configured (or default) address. -/
def getAddress (options : Options) (e : Emulators) : EmulatorInfo :=
  options.addr e

def filterEmulatorTargets (options : Options) : List Emulators :=
  let targets := ALL_SERVICE_EMULATORS.filter (fun e =>
    options.config.hasKey (emuName e) ||
      options.config.hasKey ("emulators." ++ emuName e))
  match options.only with
  | some only =>
      targets.filter (fun t => (only.splitOn ",").contains (emuName t))
  | none => targets

def shouldStart (options : Options) (name : Emulators) : Bool :=
  if name = Emulators.hub then
    true
  else
    (filterEmulatorTargets options).contains name

/-- Modelled from the spec (§4.1): `pf.getPortPromise({host, port, stopPort})`
    is the external `portfinder` library; it scans `port..stopPort` and
    returns the first free port, failing when the whole window is occupied. -/
def getPortPromise (env : Env) (host : String) (port stopPort : Nat) :
    Except Err Nat :=
  match (List.range' port (stopPort + 1 - port)).find?
      (fun p => checkPortOpen env p host) with
  | some p => .ok p
  | none => .error (.node "Error: No open ports found")

/-! Export metadata document (`src/emulator/hubExport.ts`) and its JSON
    serialization.  `stringifyMetadata` mirrors `JSON.stringify` on an
    `ExportMetadata` object whose fields were assigned in the order
    `version`, then (optionally) `firestore`; `parseMetadata` mirrors
    `JSON.parse` restricted to flat objects with string values, the only
    shape this document ever takes.  Both are faithful to the JavaScript
    originals on strings needing no escaping (`jsonSafe`). -/

structure ExportMetadata where
  version : String
  firestore : Option String := none
deriving DecidableEq

def stringifyMetadata (m : ExportMetadata) : String :=
  match m.firestore with
  | none => "\x7b\"version\":\"" ++ m.version ++ "\"\x7d"
  | some f =>
      "\x7b\"version\":\"" ++ m.version ++ "\",\"firestore\":\"" ++ f ++ "\"\x7d"

def jsonSafe (s : String) : Bool :=
  s.data.all (fun c => !(c == '"') && !(c == '\\') && decide (32 ≤ c.toNat))

/-- Parses the remainder of a JSON string literal (the opening quote already
    consumed): returns the contents and the input after the closing quote. -/
def parseStringRest : List Char → Option (List Char × List Char)
  | [] => none
  | c :: cs =>
      if c = '"' then some ([], cs)
      else
        match parseStringRest cs with
        | some (s, r) => some (c :: s, r)
        | none => none

/-- Parses the members of a flat JSON object of string values, starting right
    after the opening brace and consuming the closing brace; fueled. -/
def parseMembers : Nat → List Char → Option (List (List Char × List Char))
  | 0, _ => none
  | fuel + 1, cs =>
      match cs with
      | '"' :: cs1 =>
          match parseStringRest cs1 with
          | some (key, ':' :: '"' :: cs2) =>
              match parseStringRest cs2 with
              | some (val, cs3) =>
                  match cs3 with
                  | ',' :: cs4 =>
                      match parseMembers fuel cs4 with
                      | some pairs => some ((key, val) :: pairs)
                      | none => none
                  | ['}'] => some [(key, val)]
                  | _ => none
              | none => none
          | _ => none
      | _ => none

def parseMetadata (s : String) : Option ExportMetadata :=
  match s.data with
  | '{' :: rest =>
      match parseMembers (rest.length + 1) rest with
      | some pairs =>
          match pairs.lookup "version".data with
          | some v =>
              some { version := String.mk v,
                     firestore := (pairs.lookup "firestore".data).map String.mk }
          | none => none
      | none => none
  | _ => none

/-! HubExport (`src/emulator/hubExport.ts`). -/

def HubExport.METADATA_FILE_NAME : String := "metadata.json"

def HubExport.shouldExport (w : World) (e : Emulators) : Bool :=
  IMPORT_EXPORT_EMULATORS.contains e && EmulatorRegistry.isRunning w e

def HubExport.getExportName (e : Emulators) : Except Err String :=
  match e with
  | .firestore => .ok "firestore_export"
  | _ => .error (.node ("Export name not defined for " ++ emuName e))

def HubExport.exportFirestore (env : Env) (projectId exportPath : String)
    (w : World) : Except Err Unit :=
  match EmulatorRegistry.get w .firestore with
  | none => .error (.node "TypeError: Cannot read property getInfo of undefined")
  | some _ =>
      match HubExport.getExportName .firestore with
      | .error e => .error e
      | .ok name =>
          env.firestoreExportApi
            { database := "projects/" ++ projectId ++ "/databases/(default)",
              export_directory := exportPath,
              export_name := name }

def HubExport.exportAll (env : Env) (projectId exportPath : String)
    (w : World) : Res Unit :=
  let toExport := ALL_EMULATORS.filter (fun e => HubExport.shouldExport w e)
  if toExport.length = 0 then
    .err (.firebase "No running emulators support import/export.") w
  else
    let metadata : ExportMetadata := { version := env.cliVersion }
    if HubExport.shouldExport w .firestore then
      match HubExport.getExportName .firestore with
      | .error e => .err e w
      | .ok name =>
          match HubExport.exportFirestore env projectId exportPath w with
          | .error e => .err e w
          | .ok () =>
              let metadata := { metadata with firestore := some name }
              let metadataPath := pathJoin exportPath HubExport.METADATA_FILE_NAME
              .ok () { w with
                files := writeFile w.files metadataPath (stringifyMetadata metadata) }
    else
      let metadataPath := pathJoin exportPath HubExport.METADATA_FILE_NAME
      .ok () { w with
        files := writeFile w.files metadataPath (stringifyMetadata metadata) }

/-! The `startAll` start sequence, one definition per source block. -/

/-- Parses the export metadata (`startAll` lines: `let exportMetadata = ...`):
    without `--import` the placeholder `{version: "unknown"}` is used;
    otherwise the metadata file under the resolved import directory is read
    (a missing file means `fs.readFileSync` throws `ENOENT`) and JSON-parsed
    (a malformed file means `JSON.parse` throws). -/
def parseExportMetadataStep (env : Env) (options : Options) (w : World) :
    Except Err ExportMetadata :=
  match options.importPath with
  | none => .ok { version := "unknown" }
  | some imp =>
      let importDir := pathResolve env.cwd imp
      let metaPath := pathJoin importDir HubExport.METADATA_FILE_NAME
      match readFile w.files metaPath with
      | none => .error (.node ("ENOENT: no such file or directory, open " ++ metaPath))
      | some contents =>
          match parseMetadata contents with
          | none => .error (.node "SyntaxError: Unexpected token in JSON")
          | some m => .ok m

def startFunctionsStep (env : Env) (options : Options) (w : World) : Res Unit :=
  if shouldStart options .functions then
    let functionsAddr := getAddress options .functions
    let projectId := getProjectId options false
    -- config.get("functions.source"); an absent key is not exercised here
    let functionsDir := pathJoin options.config.projectDir
      ((options.config.getStr "functions.source").getD "")
    let inspectFunctions := options.inspectFunctions
    startEmulator env w
      (.functions projectId functionsDir functionsAddr.host functionsAddr.port
        inspectFunctions)
  else
    .ok () w

def startFirestoreStep (env : Env) (options : Options)
    (exportMetadata : ExportMetadata) (w : World) : Res Unit :=
  if shouldStart options .firestore then
    let firestoreAddr := getAddress options .firestore
    let args0 : FirestoreEmulatorArgs :=
      { host := firestoreAddr.host,
        port := firestoreAddr.port,
        projectId := options.project,
        auto_download := true }
    let args1 :=
      match exportMetadata.firestore with
      | some fsExport =>
          -- options.import is always set when the metadata has a firestore key
          let importDirAbsPath := pathResolve env.cwd (options.importPath.getD "")
          let firestoreExportName := pathJoin importDirAbsPath fsExport
          let exportMetadataFilePath := pathJoin importDirAbsPath
            (firestoreExportName ++ "/" ++ firestoreExportName ++
              ".overall_export_metadata")
          { args0 with seed_from_export := some exportMetadataFilePath }
      | none => args0
    let args2 :=
      match options.config.getStr "firestore.rules" with
      | some rulesLocalPath =>
          let rules := pathJoin options.projectRoot rulesLocalPath
          if existsSync w rules then { args1 with rules := some rules } else args1
      | none => args1
    startEmulator env w (.firestore args2)
  else
    .ok () w

def startDatabaseStep (env : Env) (options : Options) (w : World) : Res Unit :=
  if shouldStart options .database then
    let databaseAddr := getAddress options .database
    let args0 : DatabaseEmulatorArgs :=
      { host := databaseAddr.host,
        port := databaseAddr.port,
        projectId := options.project,
        auto_download := true }
    let args1 :=
      if shouldStart options .functions then
        let functionsAddr := getAddress options .functions
        { args0 with
          functions_emulator_host := some functionsAddr.host,
          functions_emulator_port := some functionsAddr.port }
      else args0
    let args2 :=
      match options.config.getStr "database.rules" with
      | some rulesLocalPath =>
          let rules := pathJoin options.projectRoot rulesLocalPath
          if existsSync w rules then { args1 with rules := some rules } else args1
      | none => args1
    startEmulator env w (.database args2)
  else
    .ok () w

def startHostingStep (env : Env) (options : Options) (w : World) : Res Unit :=
  if shouldStart options .hosting then
    let hostingAddr := getAddress options .hosting
    startEmulator env w (.hosting hostingAddr.host hostingAddr.port)
  else
    .ok () w

def pubsubNoProjectMsg : String :=
  "Cannot start the Pub/Sub emulator without a project: " ++
    "run 'firebase init' or provide the --project flag"

def startPubsubStep (env : Env) (options : Options) (w : World) : Res Unit :=
  if shouldStart options .pubsub then
    match options.project with
    | none => .err (.firebase pubsubNoProjectMsg) w
    | some projectId =>
        let pubsubAddr := getAddress options .pubsub
        startEmulator env w (.pubsub pubsubAddr.host pubsubAddr.port projectId)
  else
    .ok () w

def startAll (env : Env) (options : Options) (w : World) : Res Unit :=
  -- targets are recomputed by shouldStart at each branch, as in the source;
  -- the `options.targets = targets` assignment only feeds logging
  let projectId := getProjectId options true
  let hubAddr := getAddress options .hub
  match getPortPromise env hubAddr.host hubAddr.port (hubAddr.port + 100) with
  | .error e => .err e w
  | .ok hubPort =>
      Res.bind (startEmulator env w (.hub projectId hubAddr.host hubPort))
        (fun _ w =>
          match parseExportMetadataStep env options w with
          | .error e => .err e w
          | .ok exportMetadata =>
              Res.bind (startFunctionsStep env options w) (fun _ w =>
                Res.bind (startFirestoreStep env options exportMetadata w) (fun _ w =>
                  Res.bind (startDatabaseStep env options w) (fun _ w =>
                    Res.bind (startHostingStep env options w) (fun _ w =>
                      Res.bind (startPubsubStep env options w) (fun _ w =>
                        -- each running instance's connect() is an external
                        -- post-startup handshake, modelled as succeeding
                        .ok () w))))))

/-! Concrete scenarios used to evaluate the embedded code. -/

def emptyWorld : World := { registry := [], files := [], started := [] }

def envAllFree : Env :=
  { check := fun _ _ => .ok false,
    stopResult := fun _ => .ok (),
    firestoreExportApi := fun _ => .ok (),
    cliVersion := "7.0.0",
    cwd := "/" }

def envStopsFail : Env :=
  { envAllFree with stopResult := fun _ => .error () }

def envBusy8080 : Env :=
  { envAllFree with check := fun p _ => .ok (decide (p = 8080)) }

def envAllBusy : Env :=
  { envAllFree with check := fun _ _ => .ok true }

def envApiFails : Env :=
  { envAllFree with
    firestoreExportApi := fun _ => .error (.node "Error: ECONNREFUSED") }

def configOf (keys : List String) : Config :=
  { hasKey := fun k => keys.contains k,
    getStr := fun _ => none,
    projectDir := "/proj" }

def addrDefaults : Emulators → EmulatorInfo
  | .hub => ⟨"localhost", 4000⟩
  | .functions => ⟨"localhost", 5001⟩
  | .firestore => ⟨"localhost", 8080⟩
  | .database => ⟨"localhost", 9000⟩
  | .hosting => ⟨"localhost", 5000⟩
  | .pubsub => ⟨"localhost", 8085⟩

def optsFirestoreHosting : Options :=
  { config := configOf ["firestore", "hosting"],
    only := none,
    importPath := none,
    project := some "demo",
    projectRoot := "/proj",
    inspectFunctions := none,
    addr := addrDefaults }

def runFirestoreHosting : Res Unit :=
  startAll envAllFree optsFirestoreHosting emptyWorld

def optsPubsubOnly : Options :=
  { config := configOf ["pubsub"],
    only := none,
    importPath := none,
    project := none,
    projectRoot := "/proj",
    inspectFunctions := none,
    addr := addrDefaults }

def runPubsubNoProject : Res Unit :=
  startAll envAllFree optsPubsubOnly emptyWorld

def wHubOnly : World :=
  { registry := [.hub (some "demo") "localhost" 4000],
    files := [],
    started := [.hub (some "demo") "localhost" 4000] }

def fsArgs8080 : FirestoreEmulatorArgs :=
  { host := "localhost",
    port := 8080,
    projectId := some "demo",
    auto_download := true }

def wFirestoreRunning : World :=
  { registry := [.firestore fsArgs8080],
    files := [],
    started := [.firestore fsArgs8080] }

def runExport : Res Unit :=
  HubExport.exportAll envAllFree "demo" "/data" wFirestoreRunning

def optsImportFirestore : Options :=
  { config := configOf ["firestore"],
    only := none,
    importPath := some "/data",
    project := some "demo",
    projectRoot := "/proj",
    inspectFunctions := none,
    addr := addrDefaults }

def runImport : Res Unit :=
  startAll envAllFree optsImportFirestore
    { registry := [], files := (runExport.world).files, started := [] }

def fsArgsImported : FirestoreEmulatorArgs :=
  { host := "localhost",
    port := 8080,
    projectId := some "demo",
    auto_download := true,
    seed_from_export :=
      some "/data/data/firestore_export/data/firestore_export.overall_export_metadata" }

def worldWithMetadataFile (path : String) (md : ExportMetadata)
    (w : World) : World :=
  { w with
    files := writeFile w.files (pathJoin path HubExport.METADATA_FILE_NAME)
      (stringifyMetadata md) }

@[simp] theorem Res.bind_ok {α β : Type} (a : α) (w : World)
    (f : α → World → Res β) : Res.bind (.ok a w) f = f a w := rfl

@[simp] theorem Res.bind_err {α β : Type} (e : Err) (w : World)
    (f : α → World → Res β) : Res.bind (.err e w) f = .err e w := rfl

theorem Res.bind_eq_ok {α β : Type} {r : Res α} {f : α → World → Res β}
    {b : β} {w' : World} (h : Res.bind r f = .ok b w') :
    ∃ a w1, r = .ok a w1 ∧ f a w1 = .ok b w' := by
  cases r with
  | ok a w => exact ⟨a, w, rfl, h⟩
  | err e w => simp [Res.bind] at h

theorem Res.bind_eq_err {α β : Type} {r : Res α} {f : α → World → Res β}
    {e : Err} {w' : World} (h : Res.bind r f = .err e w') :
    (r = .err e w') ∨ (∃ a w1, r = .ok a w1 ∧ f a w1 = .err e w') := by
  cases r with
  | ok a w => exact .inr ⟨a, w, rfl, h⟩
  | err e0 w => exact .inl (by simpa [Res.bind] using h)

/-! Basic lemmas about the registry and shutdown. -/

theorem EmulatorRegistry.stop_def (env : Env) (w : World) (e : Emulators) :
    EmulatorRegistry.stop env w e =
      { w with registry := w.registry.filter (fun i => i.getName != e) } := rfl

theorem foldl_stop (env : Env) :
    ∀ (names : List Emulators) (w : World),
      names.foldl (fun acc n => EmulatorRegistry.stop env acc n) w =
        { w with registry :=
            w.registry.filter (fun i => !(names.contains i.getName)) } := by
  intro names
  induction names with
  | nil =>
      intro w
      simp
  | cons n ns ih =>
      intro w
      rw [List.foldl_cons, ih, EmulatorRegistry.stop_def]
      congr 1
      rw [List.filter_filter]
      apply List.filter_congr
      intro i _
      simp only [List.contains_cons, Bool.not_or, bne]
      rw [Bool.and_comm]

theorem cleanShutdown_spec (env : Env) (w : World) :
    cleanShutdown env w = (true, { w with registry := [] }) := by
  simp only [cleanShutdown, EmulatorRegistry.listRunning]
  rw [foldl_stop]
  have hnil : w.registry.filter
      (fun i => !((w.registry.map EmulatorInstance.getName).contains i.getName)) = [] := by
    rw [List.filter_eq_nil_iff]
    intro i hi
    simp
    exact ⟨i, hi, rfl⟩
  rw [hnil]

theorem world_eta_registry {w : World} (h : w.registry = []) :
    { w with registry := ([] : List EmulatorInstance) } = w := by
  cases w
  simp_all

/-! Lemmas about `startEmulator` and the per-service steps. -/

theorem startEmulator_ok {env : Env} {w : World} {i : EmulatorInstance}
    {a : Unit} {w' : World} (h : startEmulator env w i = .ok a w') :
    w' = { w with registry := w.registry ++ [i], started := w.started ++ [i] } := by
  simp only [startEmulator] at h
  split at h
  · simp at h
  · unfold EmulatorRegistry.start at h
    split at h
    · simp at h
    · injection h with h1 h2
      exact h2.symm

theorem startEmulator_err {env : Env} {w : World} {i : EmulatorInstance}
    {e : Err} {w' : World} (h : startEmulator env w i = .err e w') :
    (e = .portTaken i.getName ∧ w' = { w with registry := [] }) ∨
      (e = .duplicateStart i.getName ∧ w' = w) := by
  simp only [startEmulator] at h
  split at h
  · rw [cleanShutdown_spec] at h
    injection h with h1 h2
    exact .inl ⟨h1.symm, h2.symm⟩
  · unfold EmulatorRegistry.start at h
    split at h
    · injection h with h1 h2
      exact .inr ⟨h1.symm, h2.symm⟩
    · simp at h

theorem startFunctionsStep_ok {env : Env} {o : Options} {w : World}
    {a : Unit} {w' : World} (h : startFunctionsStep env o w = .ok a w') :
    ∃ l, w'.registry = w.registry ++ l ∧ w'.started = w.started ++ l ∧
      w'.files = w.files ∧
      l.map EmulatorInstance.getName =
        (if shouldStart o .functions then [Emulators.functions] else []) := by
  simp only [startFunctionsStep] at h
  split at h
  · rw [startEmulator_ok h]
    refine ⟨[_], rfl, rfl, rfl, ?_⟩
    simp_all [EmulatorInstance.getName]
  · injection h with h1 h2
    subst h2
    refine ⟨[], by simp, by simp, rfl, ?_⟩
    simp_all

theorem startFirestoreStep_ok {env : Env} {o : Options} {m : ExportMetadata}
    {w : World} {a : Unit} {w' : World}
    (h : startFirestoreStep env o m w = .ok a w') :
    ∃ l, w'.registry = w.registry ++ l ∧ w'.started = w.started ++ l ∧
      w'.files = w.files ∧
      l.map EmulatorInstance.getName =
        (if shouldStart o .firestore then [Emulators.firestore] else []) := by
  simp only [startFirestoreStep] at h
  split at h
  · rw [startEmulator_ok h]
    refine ⟨[_], rfl, rfl, rfl, ?_⟩
    simp_all [EmulatorInstance.getName]
  · injection h with h1 h2
    subst h2
    refine ⟨[], by simp, by simp, rfl, ?_⟩
    simp_all

theorem startDatabaseStep_ok {env : Env} {o : Options} {w : World}
    {a : Unit} {w' : World} (h : startDatabaseStep env o w = .ok a w') :
    ∃ l, w'.registry = w.registry ++ l ∧ w'.started = w.started ++ l ∧
      w'.files = w.files ∧
      l.map EmulatorInstance.getName =
        (if shouldStart o .database then [Emulators.database] else []) := by
  simp only [startDatabaseStep] at h
  split at h
  · rw [startEmulator_ok h]
    refine ⟨[_], rfl, rfl, rfl, ?_⟩
    simp_all [EmulatorInstance.getName]
  · injection h with h1 h2
    subst h2
    refine ⟨[], by simp, by simp, rfl, ?_⟩
    simp_all

theorem startHostingStep_ok {env : Env} {o : Options} {w : World}
    {a : Unit} {w' : World} (h : startHostingStep env o w = .ok a w') :
    ∃ l, w'.registry = w.registry ++ l ∧ w'.started = w.started ++ l ∧
      w'.files = w.files ∧
      l.map EmulatorInstance.getName =
        (if shouldStart o .hosting then [Emulators.hosting] else []) := by
  simp only [startHostingStep] at h
  split at h
  · rw [startEmulator_ok h]
    refine ⟨[_], rfl, rfl, rfl, ?_⟩
    simp_all [EmulatorInstance.getName]
  · injection h with h1 h2
    subst h2
    refine ⟨[], by simp, by simp, rfl, ?_⟩
    simp_all

theorem startPubsubStep_ok {env : Env} {o : Options} {w : World}
    {a : Unit} {w' : World} (h : startPubsubStep env o w = .ok a w') :
    ∃ l, w'.registry = w.registry ++ l ∧ w'.started = w.started ++ l ∧
      w'.files = w.files ∧
      l.map EmulatorInstance.getName =
        (if shouldStart o .pubsub then [Emulators.pubsub] else []) := by
  simp only [startPubsubStep] at h
  split at h
  · split at h
    · simp at h
    · rw [startEmulator_ok h]
      refine ⟨[_], rfl, rfl, rfl, ?_⟩
      simp_all [EmulatorInstance.getName]
  · injection h with h1 h2
    subst h2
    refine ⟨[], by simp, by simp, rfl, ?_⟩
    simp_all

theorem startFunctionsStep_err {env : Env} {o : Options} {w : World}
    {e : Err} {w' : World} (h : startFunctionsStep env o w = .err e w') :
    ((∃ n, e = .portTaken n) ∧ w' = { w with registry := [] }) ∨
      ((∃ n, e = .duplicateStart n) ∧ w' = w) := by
  simp only [startFunctionsStep] at h
  split at h
  · rcases startEmulator_err h with ⟨he, hw⟩ | ⟨he, hw⟩
    · exact .inl ⟨⟨_, he⟩, hw⟩
    · exact .inr ⟨⟨_, he⟩, hw⟩
  · simp at h

theorem startFirestoreStep_err {env : Env} {o : Options} {m : ExportMetadata}
    {w : World} {e : Err} {w' : World}
    (h : startFirestoreStep env o m w = .err e w') :
    ((∃ n, e = .portTaken n) ∧ w' = { w with registry := [] }) ∨
      ((∃ n, e = .duplicateStart n) ∧ w' = w) := by
  simp only [startFirestoreStep] at h
  split at h
  · rcases startEmulator_err h with ⟨he, hw⟩ | ⟨he, hw⟩
    · exact .inl ⟨⟨_, he⟩, hw⟩
    · exact .inr ⟨⟨_, he⟩, hw⟩
  · simp at h

theorem startDatabaseStep_err {env : Env} {o : Options} {w : World}
    {e : Err} {w' : World} (h : startDatabaseStep env o w = .err e w') :
    ((∃ n, e = .portTaken n) ∧ w' = { w with registry := [] }) ∨
      ((∃ n, e = .duplicateStart n) ∧ w' = w) := by
  simp only [startDatabaseStep] at h
  split at h
  · rcases startEmulator_err h with ⟨he, hw⟩ | ⟨he, hw⟩
    · exact .inl ⟨⟨_, he⟩, hw⟩
    · exact .inr ⟨⟨_, he⟩, hw⟩
  · simp at h

theorem startHostingStep_err {env : Env} {o : Options} {w : World}
    {e : Err} {w' : World} (h : startHostingStep env o w = .err e w') :
    ((∃ n, e = .portTaken n) ∧ w' = { w with registry := [] }) ∨
      ((∃ n, e = .duplicateStart n) ∧ w' = w) := by
  simp only [startHostingStep] at h
  split at h
  · rcases startEmulator_err h with ⟨he, hw⟩ | ⟨he, hw⟩
    · exact .inl ⟨⟨_, he⟩, hw⟩
    · exact .inr ⟨⟨_, he⟩, hw⟩
  · simp at h

theorem startPubsubStep_err {env : Env} {o : Options} {w : World}
    {e : Err} {w' : World} (h : startPubsubStep env o w = .err e w') :
    ((∃ n, e = .portTaken n) ∧ w' = { w with registry := [] }) ∨
      ((∃ n, e = .duplicateStart n) ∧ w' = w) ∨
      (e = .firebase pubsubNoProjectMsg ∧ w' = w) := by
  simp only [startPubsubStep] at h
  split at h
  · split at h
    · injection h with h1 h2
      exact .inr (.inr ⟨h1.symm, h2.symm⟩)
    · rcases startEmulator_err h with ⟨he, hw⟩ | ⟨he, hw⟩
      · exact .inl ⟨⟨_, he⟩, hw⟩
      · exact .inr (.inl ⟨⟨_, he⟩, hw⟩)
  · simp at h

theorem parseExportMetadataStep_err {env : Env} {o : Options} {w : World}
    {e : Err} (h : parseExportMetadataStep env o w = .error e) :
    ∃ m, e = .node m := by
  simp only [parseExportMetadataStep] at h
  split at h
  · simp at h
  · split at h
    · injection h with h1
      exact ⟨_, h1.symm⟩
    · split at h
      · injection h with h1
        exact ⟨_, h1.symm⟩
      · simp at h

theorem startAll_ok_decomp {env : Env} {o : Options} {w w' : World}
    (h : startAll env o w = .ok () w') :
    ∃ (hubInst : EmulatorInstance) (l : List EmulatorInstance),
      hubInst.getName = Emulators.hub ∧
      w'.registry = w.registry ++ hubInst :: l ∧
      w'.started = w.started ++ hubInst :: l ∧
      w'.files = w.files ∧
      l.map EmulatorInstance.getName =
        (if shouldStart o .functions then [Emulators.functions] else []) ++
        (if shouldStart o .firestore then [Emulators.firestore] else []) ++
        (if shouldStart o .database then [Emulators.database] else []) ++
        (if shouldStart o .hosting then [Emulators.hosting] else []) ++
        (if shouldStart o .pubsub then [Emulators.pubsub] else []) := by
  simp only [startAll] at h
  split at h
  · simp at h
  · obtain ⟨a1, w1, hHub, h⟩ := Res.bind_eq_ok h
    try dsimp only at h
    split at h
    · simp at h
    · obtain ⟨a2, w2, hF, h⟩ := Res.bind_eq_ok h
      try dsimp only at h
      obtain ⟨a3, w3, hFs, h⟩ := Res.bind_eq_ok h
      try dsimp only at h
      obtain ⟨a4, w4, hDb, h⟩ := Res.bind_eq_ok h
      try dsimp only at h
      obtain ⟨a5, w5, hHo, h⟩ := Res.bind_eq_ok h
      try dsimp only at h
      obtain ⟨a6, w6, hPs, h⟩ := Res.bind_eq_ok h
      try dsimp only at h
      injection h with h1 h2
      subst h2
      obtain ⟨hubInst, Hhub, hname⟩ :
          ∃ hi : EmulatorInstance,
            w1 = { w with registry := w.registry ++ [hi],
                          started := w.started ++ [hi] } ∧
              hi.getName = Emulators.hub :=
        ⟨_, startEmulator_ok hHub, rfl⟩
      subst Hhub
      obtain ⟨l1, r1, s1, f1, m1⟩ := startFunctionsStep_ok hF
      obtain ⟨l2, r2, s2, f2, m2⟩ := startFirestoreStep_ok hFs
      obtain ⟨l3, r3, s3, f3, m3⟩ := startDatabaseStep_ok hDb
      obtain ⟨l4, r4, s4, f4, m4⟩ := startHostingStep_ok hHo
      obtain ⟨l5, r5, s5, f5, m5⟩ := startPubsubStep_ok hPs
      refine ⟨hubInst, l1 ++ l2 ++ l3 ++ l4 ++ l5, hname, ?_, ?_, ?_, ?_⟩
      · rw [r5, r4, r3, r2, r1]
        simp [List.append_assoc]
      · rw [s5, s4, s3, s2, s1]
        simp [List.append_assoc]
      · rw [f5, f4, f3, f2, f1]
      · simp only [List.map_append, m1, m2, m3, m4, m5, List.append_assoc]

theorem getPortPromise_err {env : Env} {host : String} {port stopPort : Nat}
    {e : Err} (h : getPortPromise env host port stopPort = .error e) :
    ∃ m, e = .node m := by
  simp only [getPortPromise] at h
  split at h
  · simp at h
  · injection h with h1
    exact ⟨_, h1.symm⟩

theorem startAll_err_decomp {env : Env} {o : Options} {w : World} {e : Err}
    {w' : World} (h : startAll env o w = .err e w') :
    ((∃ n, e = .portTaken n) ∧ w'.registry = []) ∨
      (∃ n, e = .duplicateStart n) ∨ (∃ m, e = .node m) ∨
      (e = .firebase pubsubNoProjectMsg ∧
        ∃ l, w'.registry = w.registry ++ l ∧ w'.started = w.started ++ l ∧
          Emulators.hub ∈ l.map EmulatorInstance.getName) := by
  simp only [startAll] at h
  split at h
  · rename_i e0 heq
    injection h with h1 h2
    obtain ⟨m, hm⟩ := getPortPromise_err heq
    exact .inr (.inr (.inl ⟨m, by rw [← h1, hm]⟩))
  · rcases Res.bind_eq_err h with herr | ⟨a1, w1, hHub, h⟩
    · rcases startEmulator_err herr with ⟨he, hw⟩ | ⟨he, hw⟩
      · exact .inl ⟨⟨_, he⟩, by rw [hw]⟩
      · exact .inr (.inl ⟨_, he⟩)
    · try dsimp only at h
      split at h
      · rename_i e2 heq2
        injection h with h1 h2
        obtain ⟨m, hm⟩ := parseExportMetadataStep_err heq2
        exact .inr (.inr (.inl ⟨m, by rw [← h1, hm]⟩))
      · rcases Res.bind_eq_err h with herr2 | ⟨a2, w2, hF, h⟩
        · rcases startFunctionsStep_err herr2 with ⟨he, hw⟩ | ⟨he, hw⟩
          · exact .inl ⟨he, by rw [hw]⟩
          · exact .inr (.inl he)
        · try dsimp only at h
          rcases Res.bind_eq_err h with herr3 | ⟨a3, w3, hFs, h⟩
          · rcases startFirestoreStep_err herr3 with ⟨he, hw⟩ | ⟨he, hw⟩
            · exact .inl ⟨he, by rw [hw]⟩
            · exact .inr (.inl he)
          · try dsimp only at h
            rcases Res.bind_eq_err h with herr4 | ⟨a4, w4, hDb, h⟩
            · rcases startDatabaseStep_err herr4 with ⟨he, hw⟩ | ⟨he, hw⟩
              · exact .inl ⟨he, by rw [hw]⟩
              · exact .inr (.inl he)
            · try dsimp only at h
              rcases Res.bind_eq_err h with herr5 | ⟨a5, w5, hHo, h⟩
              · rcases startHostingStep_err herr5 with ⟨he, hw⟩ | ⟨he, hw⟩
                · exact .inl ⟨he, by rw [hw]⟩
                · exact .inr (.inl he)
              · try dsimp only at h
                rcases Res.bind_eq_err h with herr6 | ⟨a6, w6, hPs, h⟩
                · rcases startPubsubStep_err herr6 with ⟨he, hw⟩ | ⟨he, hw⟩ | ⟨he, hw⟩
                  · exact .inl ⟨he, by rw [hw]⟩
                  · exact .inr (.inl he)
                  · obtain ⟨hubInst, Hhub, hname⟩ :
                        ∃ hi : EmulatorInstance,
                          w1 = { w with registry := w.registry ++ [hi],
                                        started := w.started ++ [hi] } ∧
                            hi.getName = Emulators.hub :=
                      ⟨_, startEmulator_ok hHub, rfl⟩
                    subst Hhub
                    obtain ⟨l1, r1, s1, f1, m1⟩ := startFunctionsStep_ok hF
                    obtain ⟨l2, r2, s2, f2, m2⟩ := startFirestoreStep_ok hFs
                    obtain ⟨l3, r3, s3, f3, m3⟩ := startDatabaseStep_ok hDb
                    obtain ⟨l4, r4, s4, f4, m4⟩ := startHostingStep_ok hHo
                    refine .inr (.inr (.inr ⟨he,
                      hubInst :: (l1 ++ l2 ++ l3 ++ l4), ?_, ?_, ?_⟩))
                    · rw [hw, r4, r3, r2, r1]
                      simp [List.append_assoc]
                    · rw [hw, s4, s3, s2, s1]
                      simp [List.append_assoc]
                    · simp [hname]
                · try dsimp only at h
                  simp at h

theorem shouldStart_service (o : Options) (e : Emulators)
    (hne : e ≠ Emulators.hub) :
    shouldStart o e = (filterEmulatorTargets o).contains e := by
  simp [shouldStart, hne]

theorem filterEmulatorTargets_filter (o : Options) :
    ∃ q : Emulators → Bool,
      filterEmulatorTargets o = ALL_SERVICE_EMULATORS.filter q := by
  unfold filterEmulatorTargets
  split
  · exact ⟨_, by rw [List.filter_filter]⟩
  · exact ⟨_, rfl⟩

theorem selected_concat_eq (q : Emulators → Bool) :
    ((if (ALL_SERVICE_EMULATORS.filter q).contains Emulators.functions then
        [Emulators.functions] else []) ++
      (if (ALL_SERVICE_EMULATORS.filter q).contains Emulators.firestore then
        [Emulators.firestore] else []) ++
      (if (ALL_SERVICE_EMULATORS.filter q).contains Emulators.database then
        [Emulators.database] else []) ++
      (if (ALL_SERVICE_EMULATORS.filter q).contains Emulators.hosting then
        [Emulators.hosting] else []) ++
      (if (ALL_SERVICE_EMULATORS.filter q).contains Emulators.pubsub then
        [Emulators.pubsub] else [])) =
      ALL_SERVICE_EMULATORS.filter q := by
  cases h1 : q .functions <;> cases h2 : q .firestore <;> cases h3 : q .database <;>
    cases h4 : q .hosting <;> cases h5 : q .pubsub <;>
      simp [ALL_SERVICE_EMULATORS, List.filter, h1, h2, h3, h4, h5]

theorem selectedIfs_eq_targets (o : Options) :
    ((if shouldStart o .functions then [Emulators.functions] else []) ++
      (if shouldStart o .firestore then [Emulators.firestore] else []) ++
      (if shouldStart o .database then [Emulators.database] else []) ++
      (if shouldStart o .hosting then [Emulators.hosting] else []) ++
      (if shouldStart o .pubsub then [Emulators.pubsub] else [])) =
      filterEmulatorTargets o := by
  obtain ⟨q, hq⟩ := filterEmulatorTargets_filter o
  rw [shouldStart_service o .functions (by decide),
    shouldStart_service o .firestore (by decide),
    shouldStart_service o .database (by decide),
    shouldStart_service o .hosting (by decide),
    shouldStart_service o .pubsub (by decide), hq]
  exact selected_concat_eq q

/-! Claim theorems. -/

/-- C7: `startAll` starts the hub first and then attempts the selected
    services in the fixed precedence order FUNCTIONS, FIRESTORE, DATABASE,
    HOSTING, PUBSUB: every successful run's registration trace is the hub
    followed by exactly the filtered target list in that order.  Concretely,
    with targets {FIRESTORE, HOSTING} and ports 8080 and 5000 free, both
    start with those ports and `listRunning()` is HUB, FIRESTORE, HOSTING in
    registration order. -/
theorem startAll_fixed_start_order :
    (∀ (env : Env) (o : Options) (w w' : World), w.started = [] →
      startAll env o w = .ok () w' →
      w'.started.map EmulatorInstance.getName =
        Emulators.hub :: filterEmulatorTargets o) ∧
    (runFirestoreHosting.isOk = true ∧
      EmulatorRegistry.listRunning runFirestoreHosting.world =
        [Emulators.hub, Emulators.firestore, Emulators.hosting] ∧
      EmulatorRegistry.get runFirestoreHosting.world .firestore =
        some (.firestore fsArgs8080) ∧
      EmulatorRegistry.get runFirestoreHosting.world .hosting =
        some (.hosting "localhost" 5000)) := by
  constructor
  · intro env o w w' hs h
    obtain ⟨hubInst, l, hname, hr, hst, hf, hm⟩ := startAll_ok_decomp h
    rw [hst, hs]
    simp only [List.nil_append, List.map_cons, hname, hm]
    rw [selectedIfs_eq_targets]
  · refine ⟨by decide, by decide, by decide, by decide⟩

theorem startAll_fixed_start_order_witness :
    (runFirestoreHosting.world).started.map EmulatorInstance.getName =
      Emulators.hub :: filterEmulatorTargets optsFirestoreHosting :=
  startAll_fixed_start_order.1 envAllFree optsFirestoreHosting emptyWorld
    runFirestoreHosting.world rfl (by decide)

/-- C4: `shouldStart` returns true for HUB for every options value, and
    every successful `startAll` run has the hub among the registered
    (started) services — indeed the hub is the first registration of the
    run. -/
theorem shouldStart_hub_always_and_startAll_starts_hub :
    (∀ o : Options, shouldStart o Emulators.hub = true) ∧
    (∀ (env : Env) (o : Options) (w w' : World),
      startAll env o w = .ok () w' →
      Emulators.hub ∈ w'.registry.map EmulatorInstance.getName) ∧
    (∀ (env : Env) (o : Options) (w w' : World), w.started = [] →
      startAll env o w = .ok () w' →
      (w'.started.map EmulatorInstance.getName).head? = some Emulators.hub) := by
  refine ⟨fun o => rfl, ?_, ?_⟩
  · intro env o w w' h
    obtain ⟨hubInst, l, hname, hr, -, -, -⟩ := startAll_ok_decomp h
    rw [hr]
    simp [hname]
  · intro env o w w' hs h
    obtain ⟨hubInst, l, hname, -, hst, -, -⟩ := startAll_ok_decomp h
    rw [hst, hs]
    simp [hname]

theorem shouldStart_hub_always_and_startAll_starts_hub_witness :
    shouldStart optsFirestoreHosting Emulators.hub = true ∧
    Emulators.hub ∈ (runFirestoreHosting.world).registry.map EmulatorInstance.getName ∧
    ((runFirestoreHosting.world).started.map EmulatorInstance.getName).head? =
      some Emulators.hub :=
  ⟨shouldStart_hub_always_and_startAll_starts_hub.1 optsFirestoreHosting,
   shouldStart_hub_always_and_startAll_starts_hub.2.1 envAllFree
     optsFirestoreHosting emptyWorld runFirestoreHosting.world (by decide),
   shouldStart_hub_always_and_startAll_starts_hub.2.2 envAllFree
     optsFirestoreHosting emptyWorld runFirestoreHosting.world rfl (by decide)⟩

/-- C3: when the resolved port of an instance is not open, `startEmulator`
    first performs a full shutdown of everything registered (the resulting
    registry is empty), never invokes `Registry.start` for the instance (the
    registration trace is unchanged), and fails with the port-taken
    condition; consequently any `startAll` run that surfaces a port-taken
    failure ends with zero running registry entries. -/
theorem startEmulator_port_taken_full_shutdown :
    (∀ (env : Env) (w : World) (i : EmulatorInstance),
      checkPortOpen env i.getInfo.port i.getInfo.host = false →
      startEmulator env w i =
        .err (.portTaken i.getName) { w with registry := [] } ∧
      ({ w with registry := ([] : List EmulatorInstance) }).started = w.started) ∧
    (∀ (env : Env) (o : Options) (w w' : World) (n : Emulators),
      startAll env o w = .err (.portTaken n) w' → w'.registry = []) := by
  constructor
  · intro env w i h
    refine ⟨?_, rfl⟩
    simp only [startEmulator, h, Bool.not_false, if_pos, cleanShutdown_spec]
  · intro env o w w' n h
    rcases startAll_err_decomp h with ⟨-, hreg⟩ | ⟨n', he⟩ | ⟨m, he⟩ | ⟨he, -⟩
    · exact hreg
    · simp at he
    · simp at he
    · simp at he

theorem startEmulator_port_taken_full_shutdown_witness :
    startEmulator envAllBusy wHubOnly (.hosting "localhost" 5000) =
      .err (.portTaken Emulators.hosting) { wHubOnly with registry := [] } ∧
    (startAll envBusy8080 optsFirestoreHosting emptyWorld).world.registry = [] :=
  ⟨(startEmulator_port_taken_full_shutdown.1 envAllBusy wHubOnly
      (.hosting "localhost" 5000) (by decide)).1,
   startEmulator_port_taken_full_shutdown.2 envBusy8080 optsFirestoreHosting
     emptyWorld (startAll envBusy8080 optsFirestoreHosting emptyWorld).world
     Emulators.firestore (by decide)⟩

/-- C1 counterexample: with only PUBSUB configured, no resolvable project
    id, every port free and no import, `startAll` surfaces the fatal
    precondition failure while the hub — started earlier in the same run —
    is still registered: no shutdown was performed before the failure was
    surfaced, so a partially started cluster is left running, contradicting
    the claim. -/
theorem startAll_pubsub_no_project_leaves_hub_running_cex :
    runPubsubNoProject.error? = some (.firebase pubsubNoProjectMsg) ∧
    (runPubsubNoProject.world).registry.map EmulatorInstance.getName =
      [Emulators.hub] := by decide

/-- C1 amended: a port conflict triggers a full shutdown before the failure
    is surfaced, but a fatal precondition failure does not: when `startAll`
    fails with the PUBSUB missing-project precondition error, everything
    started so far — the hub included — is still registered and nothing was
    stopped. -/
theorem startAll_precondition_failure_no_shutdown :
    ∀ (env : Env) (o : Options) (w w' : World),
      startAll env o w = .err (.firebase pubsubNoProjectMsg) w' →
      ∃ l, w'.registry = w.registry ++ l ∧ w'.started = w.started ++ l ∧
        Emulators.hub ∈ l.map EmulatorInstance.getName := by
  intro env o w w' h
  rcases startAll_err_decomp h with ⟨⟨n, he⟩, -⟩ | ⟨n, he⟩ | ⟨m, he⟩ | ⟨-, hl⟩
  · simp at he
  · simp at he
  · simp at he
  · exact hl

theorem startAll_precondition_failure_no_shutdown_witness :
    ∃ l, (runPubsubNoProject.world).registry = emptyWorld.registry ++ l ∧
      (runPubsubNoProject.world).started = emptyWorld.started ++ l ∧
      Emulators.hub ∈ l.map EmulatorInstance.getName :=
  startAll_precondition_failure_no_shutdown envAllFree optsPubsubOnly
    emptyWorld runPubsubNoProject.world (by decide)

/-- C8: `cleanShutdown` never itself throws and always returns success,
    regardless of the environment — including environments in which
    individual instance stop operations fail — emptying the registry; and on
    an empty registry it is a no-op that still returns success. -/
theorem cleanShutdown_always_succeeds :
    (∀ (env : Env) (w : World),
      cleanShutdown env w = (true, { w with registry := [] })) ∧
    (∀ (env : Env) (w : World), w.registry = [] →
      cleanShutdown env w = (true, w)) := by
  refine ⟨cleanShutdown_spec, ?_⟩
  intro env w h
  rw [cleanShutdown_spec, world_eta_registry h]

theorem cleanShutdown_always_succeeds_witness :
    cleanShutdown envStopsFail wHubOnly = (true, { wHubOnly with registry := [] }) ∧
    cleanShutdown envStopsFail emptyWorld = (true, emptyWorld) :=
  ⟨cleanShutdown_always_succeeds.1 envStopsFail wHubOnly,
   cleanShutdown_always_succeeds.2 envStopsFail emptyWorld rfl⟩

/-! Lemmas about `HubExport`. -/

theorem isRunning_get {w : World} {e : Emulators}
    (h : EmulatorRegistry.isRunning w e = true) :
    ∃ i, EmulatorRegistry.get w e = some i := by
  unfold EmulatorRegistry.isRunning at h
  rw [List.any_eq_true] at h
  obtain ⟨i, hi, hp⟩ := h
  unfold EmulatorRegistry.get
  cases hf : w.registry.find? (fun i => i.getName == e) with
  | some j => exact ⟨j, rfl⟩
  | none =>
      rw [List.find?_eq_none] at hf
      exact absurd hp (hf i hi)

theorem shouldExport_firestore (w : World) :
    HubExport.shouldExport w .firestore = EmulatorRegistry.isRunning w .firestore := by
  simp [HubExport.shouldExport, IMPORT_EXPORT_EMULATORS]

theorem exportFirestore_running {env : Env} {pid path : String} {w : World}
    (h : EmulatorRegistry.isRunning w .firestore = true) :
    HubExport.exportFirestore env pid path w =
      env.firestoreExportApi
        { database := "projects/" ++ pid ++ "/databases/(default)",
          export_directory := path,
          export_name := "firestore_export" } := by
  obtain ⟨i, hi⟩ := isRunning_get h
  simp only [HubExport.exportFirestore, hi, HubExport.getExportName]

theorem exportAll_firestore_running {env : Env} {pid path : String} {w : World}
    (h : EmulatorRegistry.isRunning w .firestore = true) :
    HubExport.exportAll env pid path w =
      match HubExport.exportFirestore env pid path w with
      | .error e => .err e w
      | .ok _ =>
          .ok () (worldWithMetadataFile path
            { version := env.cliVersion, firestore := some "firestore_export" } w) := by
  have hse : HubExport.shouldExport w .firestore = true := by
    rw [shouldExport_firestore]
    exact h
  have hmem : Emulators.firestore ∈
      ALL_EMULATORS.filter (fun e => HubExport.shouldExport w e) := by
    rw [List.mem_filter]
    exact ⟨by simp [ALL_EMULATORS], hse⟩
  have hlen : ¬ (ALL_EMULATORS.filter (fun e => HubExport.shouldExport w e)).length = 0 := by
    intro h0
    rw [List.length_eq_zero] at h0
    rw [h0] at hmem
    simp at hmem
  simp only [HubExport.exportAll, hse, if_neg hlen, if_true, HubExport.getExportName,
    worldWithMetadataFile]
  cases hx : HubExport.exportFirestore env pid path w with
  | error e => rfl
  | ok a => cases a; rfl

/-- C5: with no export-capable emulator running (Firestore, the only
    export-capable kind, is not in the registry), `exportAll` fails with the
    "No running emulators support import/export." error and leaves the world
    — in particular the export directory's files — unchanged: no metadata
    file is written. -/
theorem exportAll_no_exportable_emulators_fails :
    ∀ (env : Env) (projectId exportPath : String) (w : World),
      EmulatorRegistry.isRunning w .firestore = false →
      HubExport.exportAll env projectId exportPath w =
        .err (.firebase "No running emulators support import/export.") w := by
  intro env pid path w h
  have hfilter : ALL_EMULATORS.filter (fun e => HubExport.shouldExport w e) = [] := by
    rw [List.filter_eq_nil_iff]
    intro e he
    cases e <;> simp [HubExport.shouldExport, IMPORT_EXPORT_EMULATORS, h]
  simp only [HubExport.exportAll, hfilter, List.length_nil, if_pos]

theorem exportAll_no_exportable_emulators_fails_witness :
    HubExport.exportAll envAllFree "demo" "/data" emptyWorld =
      .err (.firebase "No running emulators support import/export.") emptyWorld :=
  exportAll_no_exportable_emulators_fails envAllFree "demo" "/data" emptyWorld
    (by decide)

/-- C10: the metadata file is written only after every per-service export
    call has succeeded: when the Firestore export network call fails, the
    failure propagates out of `exportAll` and the world is unchanged — in
    particular no metadata file is written. -/
theorem exportAll_api_failure_writes_no_metadata :
    ∀ (env : Env) (projectId exportPath : String) (w : World) (e : Err),
      EmulatorRegistry.isRunning w .firestore = true →
      env.firestoreExportApi
        { database := "projects/" ++ projectId ++ "/databases/(default)",
          export_directory := exportPath,
          export_name := "firestore_export" } = .error e →
      HubExport.exportAll env projectId exportPath w = .err e w := by
  intro env pid path w e hrun happi
  rw [exportAll_firestore_running hrun, exportFirestore_running hrun, happi]

theorem exportAll_api_failure_writes_no_metadata_witness :
    HubExport.exportAll envApiFails "demo" "/data" wFirestoreRunning =
      .err (.node "Error: ECONNREFUSED") wFirestoreRunning :=
  exportAll_api_failure_writes_no_metadata envApiFails "demo" "/data"
    wFirestoreRunning (.node "Error: ECONNREFUSED") (by decide) rfl

theorem stringMk_data (s : String) : String.mk s.data = s := by cases s; rfl

theorem jsonSafe_no_quote {v : String} (h : jsonSafe v = true) : '"' ∉ v.data := by
  intro hm
  rw [jsonSafe, List.all_eq_true] at h
  have := h _ hm
  simp at this

theorem parseStringRest_append (s r : List Char) (hs : '"' ∉ s) :
    parseStringRest (s ++ '"' :: r) = some (s, r) := by
  induction s with
  | nil => simp [parseStringRest]
  | cons c cs ih =>
      rw [List.mem_cons, not_or] at hs
      have hc : ¬ (c = '"') := fun h => hs.1 h.symm
      simp only [List.cons_append, parseStringRest, if_neg hc, List.append_eq]
      rw [ih hs.2]

theorem parseMembers_version (n : Nat) (v : List Char) (hv : '"' ∉ v) :
    parseMembers (n + 1 + 1)
      ('"' :: ("version".data ++
        ('"' :: ':' :: '"' :: (v ++ ('"' :: ',' ::
          ('"' :: ("firestore".data ++ ('"' :: ':' :: '"' ::
            ("firestore_export".data ++ ('"' :: ['}'])))))))))) =
      some [("version".data, v),
        ("firestore".data, "firestore_export".data)] := by
  simp only [parseMembers,
    parseStringRest_append "version".data
      (':' :: '"' :: (v ++ ('"' :: ',' ::
        ('"' :: ("firestore".data ++ ('"' :: ':' :: '"' ::
          ("firestore_export".data ++ ('"' :: ['}'])))))))) (by decide),
    parseStringRest_append v
      (',' :: ('"' :: ("firestore".data ++ ('"' :: ':' :: '"' ::
        ("firestore_export".data ++ ('"' :: ['}'])))))) hv,
    parseStringRest_append "firestore".data
      (':' :: '"' :: ("firestore_export".data ++ ('"' :: ['}']))) (by decide),
    parseStringRest_append "firestore_export".data ['}'] (by decide)]

theorem metadata_roundtrip (v : String) (hv : jsonSafe v = true) :
    parseMetadata (stringifyMetadata
      { version := v, firestore := some "firestore_export" }) =
      some { version := v, firestore := some "firestore_export" } := by
  have hq : '"' ∉ v.data := jsonSafe_no_quote hv
  have hdata : (stringifyMetadata
      { version := v, firestore := some "firestore_export" }).data =
      '{' :: '"' :: ("version".data ++
        ('"' :: ':' :: '"' :: (v.data ++ ('"' :: ',' ::
          ('"' :: ("firestore".data ++ ('"' :: ':' :: '"' ::
            ("firestore_export".data ++ ('"' :: ['}'])))))))))  := by
    show ("\x7b\"version\":\"" ++ v ++ "\",\"firestore\":\"" ++
      "firestore_export" ++ "\"\x7d").data = _
    simp only [String.data_append]
    rw [List.append_assoc, List.append_assoc, List.append_assoc]
    have cB : "\",\"firestore\":\"".data ++
        ("firestore_export".data ++ "\"\x7d".data) =
        '"' :: ',' :: ('"' :: ("firestore".data ++ ('"' :: ':' :: '"' ::
          ("firestore_export".data ++ ('"' :: ['}']))))) := rfl
    rw [cB]
    simp [List.cons_append, List.append_assoc]
  unfold parseMetadata
  rw [hdata]
  simp only [List.length_cons]
  rw [parseMembers_version _ v.data hq]
  simp only [List.lookup,
    show (("version".data == "version".data) = true) from by decide,
    show (("firestore".data == "version".data) = false) from by decide,
    show (("firestore".data == "firestore".data) = true) from by decide]
  rw [stringMk_data]
  rfl

/-- C6: with the Firestore emulator running and the export network call
    succeeding, `exportAll` writes the metadata file whose `firestore` field
    is exactly the fixed naming convention "firestore_export", and
    JSON-parsing the written contents yields back exactly the
    `ExportMetadata` value that was serialized (round-trip), for any CLI
    version string needing no JSON escaping. -/
theorem exportAll_firestore_metadata_roundtrip :
    ∀ (env : Env) (projectId exportPath : String) (w : World),
      EmulatorRegistry.isRunning w .firestore = true →
      env.firestoreExportApi
        { database := "projects/" ++ projectId ++ "/databases/(default)",
          export_directory := exportPath,
          export_name := "firestore_export" } = .ok () →
      jsonSafe env.cliVersion = true →
      HubExport.exportAll env projectId exportPath w =
        .ok () (worldWithMetadataFile exportPath
          { version := env.cliVersion, firestore := some "firestore_export" } w) ∧
      parseMetadata (stringifyMetadata
        { version := env.cliVersion, firestore := some "firestore_export" }) =
        some { version := env.cliVersion, firestore := some "firestore_export" } := by
  intro env pid path w hrun happi hsafe
  constructor
  · rw [exportAll_firestore_running hrun, exportFirestore_running hrun, happi]
  · exact metadata_roundtrip env.cliVersion hsafe

theorem exportAll_firestore_metadata_roundtrip_witness :
    HubExport.exportAll envAllFree "demo" "/data" wFirestoreRunning =
      .ok () (worldWithMetadataFile "/data"
        { version := "7.0.0", firestore := some "firestore_export" }
        wFirestoreRunning) ∧
    parseMetadata (stringifyMetadata
      { version := "7.0.0", firestore := some "firestore_export" }) =
      some { version := "7.0.0", firestore := some "firestore_export" } :=
  exportAll_firestore_metadata_roundtrip envAllFree "demo" "/data"
    wFirestoreRunning (by decide) rfl (by decide)

/-- C9: `getExportName` yields the export name only for the FIRESTORE kind
    and throws for every other kind; consequently a successful `exportAll`
    can only ever record "firestore_export", under the `firestore` key, in
    the metadata it writes. -/
theorem getExportName_only_firestore :
    HubExport.getExportName Emulators.firestore = .ok "firestore_export" ∧
    (∀ e : Emulators, e ≠ Emulators.firestore →
      HubExport.getExportName e =
        .error (.node ("Export name not defined for " ++ emuName e))) ∧
    (∀ (env : Env) (projectId exportPath : String) (w w' : World),
      HubExport.exportAll env projectId exportPath w = .ok () w' →
      ∃ md : ExportMetadata,
        (md.firestore = none ∨ md.firestore = some "firestore_export") ∧
        w' = worldWithMetadataFile exportPath md w) := by
  refine ⟨rfl, ?_, ?_⟩
  · intro e he
    cases e <;> simp_all [HubExport.getExportName, emuName]
  · intro env pid path w w' h
    simp only [HubExport.exportAll, HubExport.getExportName] at h
    split at h
    · simp at h
    · split at h
      · split at h
        · simp at h
        · injection h with h1 h2
          exact ⟨{ version := env.cliVersion, firestore := some "firestore_export" },
            .inr rfl, by rw [← h2, worldWithMetadataFile]⟩
      · injection h with h1 h2
        exact ⟨{ version := env.cliVersion }, .inl rfl,
          by rw [← h2, worldWithMetadataFile]⟩

theorem getExportName_only_firestore_witness :
    HubExport.getExportName Emulators.database =
      .error (.node ("Export name not defined for " ++ emuName Emulators.database)) ∧
    ∃ md : ExportMetadata,
      (md.firestore = none ∨ md.firestore = some "firestore_export") ∧
      runExport.world = worldWithMetadataFile "/data" md wFirestoreRunning :=
  ⟨getExportName_only_firestore.2.1 Emulators.database (by decide),
   getExportName_only_firestore.2.2 envAllFree "demo" "/data" wFirestoreRunning
     runExport.world (by decide)⟩

/-- C2, evaluated at a failing input: export to "/data" with the Firestore
    emulator running records `firestore_export` under the `firestore` key of
    /data/metadata.json (so the exported data lives under the sub-path
    /data/firestore_export).  Restarting with that directory as the import
    source succeeds, but the controller builds the seed path by joining the
    absolute import directory into the name twice, so `seed_from_export` is
    /data/data/firestore_export/data/firestore_export.overall_export_metadata,
    which is not the recorded sub-path inside the import directory
    (/data/firestore_export/firestore_export.overall_export_metadata). -/
theorem import_seed_path_duplicates_import_dir :
    runExport.isOk = true ∧
    readFile (runExport.world).files "/data/metadata.json" =
      some "\x7b\"version\":\"7.0.0\",\"firestore\":\"firestore_export\"\x7d" ∧
    runImport.isOk = true ∧
    EmulatorRegistry.get runImport.world .firestore =
      some (.firestore fsArgsImported) ∧
    fsArgsImported.seed_from_export ≠
      some (pathJoin (pathJoin "/data" "firestore_export")
        ("firestore_export" ++ ".overall_export_metadata")) := by
  refine ⟨by decide, by decide, by decide, by decide, by decide⟩
